import Mathlib

/-!
Verification development for the google-classroom-agent repository.

The repository ships its Next.js frontend under `src/frontend`; the backend
core described by the specification (Sync Engine, Chunker/Embedder, Index
Store, Retrieval QA Engine) is not part of the checked-in sources, so every
backend definition below is modelled from the specification text and says so
in its doc comment.  Frontend definitions (`getUrgency`, the QA page's
message types, the sync-summary fields the courses page reads) are embedded
directly from the TypeScript sources.
-/

namespace ClassroomAgent

/-- The five urgency labels produced by the assignments page. -/
inductive Urgency where
  | none
  | overdue
  | urgent
  | soon
  | upcoming
deriving DecidableEq, Repr

/-- Embedding of `getUrgency` from the assignments page.  `dueDate` and `now`
are millisecond timestamps (`new Date(dueDate).getTime()` and `Date.now()`);
a `null` due date is `Option.none`. -/
def getUrgency (dueDate : Option Int) (now : Int) : Urgency :=
  match dueDate with
  | Option.none => Urgency.none
  | some d =>
    let diff := d - now
    if diff < 0 then Urgency.overdue
    else if diff < 24 * 60 * 60 * 1000 then Urgency.urgent
    else if diff < 3 * 24 * 60 * 60 * 1000 then Urgency.soon
    else Urgency.upcoming

/-- Modelled from the spec: a Chunk record as persisted by the Index Store
(spec 3): chunk index, text span, `content_hash` of the owning ContentUnit at
chunk-creation time, plus the owning unit and course identifiers and the
owning unit's kind, title and `updated_at` used for source attribution and
tie-breaking.  The embedding vector itself is not stored here; similarity
against the query vector enters `search` as a scoring function. -/
structure Chunk where
  courseId : Nat
  unitId : Nat
  index : Nat
  contentHash : Nat
  kind : String
  title : String
  text : String
  updatedAt : Int
deriving DecidableEq, Repr

/-- Modelled from the spec (4.3 numeric semantics): the ranking order on
chunks — descending similarity score, ties broken by most-recent owning
`ContentUnit.updated_at`, then by chunk index ascending.  `sim c` is the
cosine similarity of the query vector against the chunk's embedding in the
pinned embedding space; the order is stated for an arbitrary scoring
function. -/
def chunkLE (sim : Chunk → ℚ) (a b : Chunk) : Bool :=
  decide (sim b < sim a ∨ (sim a = sim b ∧
    (b.updatedAt < a.updatedAt ∨
      (a.updatedAt = b.updatedAt ∧ a.index ≤ b.index))))

/-- Modelled from the spec (4.3): `search(query_vector, access_filter,
top_k)` returns up to `top_k` chunks ranked by similarity, restricted to
chunks whose owning Course is in `access_filter`; the filter is applied as a
hard predicate on the whole store before ranking and truncation. -/
def search (sim : Chunk → ℚ) (accessFilter : List Nat) (topK : Nat)
    (store : List Chunk) : List Chunk :=
  ((store.filter (fun c => c.courseId ∈ accessFilter)).mergeSort
    (chunkLE sim)).take topK

/-- The top similarity score of a retrieval outcome (`search` returns scores
in descending order, so this is the top match's score). -/
def topScore : List ℚ → ℚ
  | [] => 0
  | s :: _ => s

/-- The maximum of a nonempty score list (0 for the empty list). -/
def maxScore : List ℚ → ℚ
  | [] => 0
  | s :: rest => rest.foldl max s

/-- The minimum of a nonempty score list (0 for the empty list). -/
def minScore : List ℚ → ℚ
  | [] => 0
  | s :: rest => rest.foldl min s

/-- Modelled from the spec (4.4 step 5): the spread of the top-K similarity
scores, the measure by which mutually dissimilar (disagreeing) retrieval
outcomes are penalized. -/
def spread (scores : List ℚ) : ℚ := maxScore scores - minScore scores

/-- Modelled from the spec (4.4 step 5): agreement among the top-K scores —
high when the retrieved chunks' scores converge, low when they disagree. -/
def agreement (scores : List ℚ) : ℚ := 1 - spread scores

/-- Clamp a rational to the interval from 0 to 1. -/
def clamp01 (x : ℚ) : ℚ := max 0 (min 1 x)

/-- Modelled from the spec (4.4 step 5, design note 9): `confidence` as a
function of (a) the top match's similarity score and (b) agreement among the
top-K scores, bounded to the unit interval; the exact constants are tunable
configuration, here a 6/4 weighted average of top similarity and agreement. -/
def confidenceOf (scores : List ℚ) : ℚ :=
  match scores with
  | [] => 0
  | _ :: _ => clamp01 ((6 * topScore scores + 4 * agreement scores) / 10)

/-- Modelled from the spec (4.4 step 2): the retrieval depth K is
configuration, e.g. 5. -/
def retrievalK : Nat := 5

/-- Modelled from the spec (4.4 step 3): the fixed "no relevant content
found" answer returned whenever retrieval yields zero chunks. -/
def noContentAnswer : String := "No relevant content found in your courses."

/-- Modelled from the spec (4.4 steps 3 and 6): the explanation attached to
the fixed no-content response. -/
def noContentExplanation : String :=
  "No indexed content matched this question within your accessible courses."

/-- Modelled from the spec (4.4 step 4): answer text strictly extracts and
lightly joins the retrieved chunk texts — no invention beyond source
material. -/
def joinChunkTexts (chunks : List Chunk) : String :=
  String.intercalate " " (chunks.map (fun c => c.text))

/-- Modelled from the spec (6): one element of the `sources` array of the
`POST /qa` response body. -/
structure QASource where
  type : String
  title : String
  excerpt : String
  relevance_score : ℚ
deriving DecidableEq, Repr

/-- Modelled from the spec (6): the `POST /qa` response body with fields
`answer`, `confidence`, `sources`, `explanation`. -/
structure QAResponse where
  answer : String
  confidence : ℚ
  sources : List QASource
  explanation : String
deriving DecidableEq, Repr

/-- Modelled from the spec (4.4 step 4): each contributing chunk becomes a
source carrying its owning ContentUnit's kind and title, an excerpt, and its
individual similarity score. -/
def mkSource (sim : Chunk → ℚ) (c : Chunk) : QASource :=
  { type := c.kind, title := c.title, excerpt := c.text,
    relevance_score := sim c }

/-- Modelled from the spec (4.4 step 6): a deterministic, rule-based
explanation naming the factor (similarity strength vs. source agreement)
that drove the confidence value. -/
def explanationOf (scores : List ℚ) : String :=
  if agreement scores < 1 / 2 then
    "Confidence lowered by disagreement among the retrieved sources."
  else if 1 / 2 < topScore scores then
    "Confidence driven by strong top-match similarity."
  else
    "Confidence limited by weak top-match similarity."

/-- Modelled from the spec (4.4): `answer(question_text, access_filter)`.
The question text is embedded with the pinned model; `sim` is the induced
cosine-similarity score of each chunk against the question embedding.  Zero
retrieved chunks (including an empty effective `access_filter`) yield the
fixed no-content response with confidence 0; otherwise the answer is composed
from the retrieved chunk texts with attributed sources and a computed
confidence. -/
def answer (sim : Chunk → ℚ) (accessFilter : List Nat)
    (store : List Chunk) : QAResponse :=
  let retrieved := search sim accessFilter retrievalK store
  if retrieved = [] then
    { answer := noContentAnswer, confidence := 0, sources := [],
      explanation := noContentExplanation }
  else
    { answer := joinChunkTexts retrieved,
      confidence := confidenceOf (retrieved.map sim),
      sources := retrieved.map (mkSource sim),
      explanation := explanationOf (retrieved.map sim) }

/-- A concrete chunk in course 1, used to instantiate universally quantified
theorems at explicit inputs. -/
def demoChunkA : Chunk :=
  { courseId := 1, unitId := 10, index := 0, contentHash := 7,
    kind := "assignment", title := "Lab 3", text := "due Friday", updatedAt := 100 }

/-- A concrete chunk in course 2 (outside the demo access filter). -/
def demoChunkB : Chunk :=
  { courseId := 2, unitId := 20, index := 0, contentHash := 8,
    kind := "announcement", title := "Other", text := "other text", updatedAt := 200 }

/-- A concrete scoring function: ranks `demoChunkB` far above `demoChunkA`. -/
def demoSim (c : Chunk) : ℚ := if c.courseId = 2 then 1 else 1 / 2

/-- Embedding of the frontend `Source` interface from the QA page:
the fields `type`, `title`, `excerpt`, `relevance_score`. -/
structure FrontendSource where
  type : String
  title : String
  excerpt : String
  relevance_score : ℚ
deriving DecidableEq, Repr

/-- The `role` field of the frontend `Message` interface. -/
inductive FrontendRole where
  | user
  | assistant
deriving DecidableEq, Repr

/-- Embedding of the frontend `Message` interface from the QA page; the
optional fields are `Option` (the `timestamp` field, set from the client
clock, is omitted). -/
structure FrontendMessage where
  role : FrontendRole
  content : String
  confidence : Option ℚ
  sources : Option (List FrontendSource)
  explanation : Option String
deriving DecidableEq, Repr

/-- Field-for-field decoding of a `POST /qa` response source into the
frontend's `Source` shape. -/
def toFrontendSource (s : QASource) : FrontendSource :=
  { type := s.type, title := s.title, excerpt := s.excerpt,
    relevance_score := s.relevance_score }

/-- Embedding of the QA page's `onSuccess` handler: the assistant `Message`
built from the deserialized `POST /qa` response body (`content` from
`data.answer`, plus `confidence`, `sources`, `explanation`). -/
def assistantMessageOf (data : QAResponse) : FrontendMessage :=
  { role := FrontendRole.assistant,
    content := data.answer,
    confidence := some data.confidence,
    sources := some (data.sources.map toFrontendSource),
    explanation := some data.explanation }

/-- Modelled from the spec (6): the `POST /qa` endpoint — the request body's
`question` is embedded with the pinned model, inducing the per-chunk score
`sim`; the caller's accessible-course set is the effective access filter. -/
def postQA (sim : Chunk → ℚ) (accessFilter : List Nat)
    (store : List Chunk) : QAResponse :=
  answer sim accessFilter store

/-- Modelled from the spec (4.3): `upsert(content_unit_id, chunks)`
atomically replaces all chunks belonging to that unit.  The atomic
delete-old-then-insert-new replacement is one state transition: every
queryable store state is either the pre-state or this post-state, never an
intermediate mix. -/
def upsert (store : List Chunk) (unitId : Nat) (newChunks : List Chunk) :
    List Chunk :=
  (store.filter (fun c => c.unitId ≠ unitId)) ++ newChunks

/-- A second new-hash demo chunk for the same unit as `demoChunkA`. -/
def demoChunkA2 : Chunk :=
  { courseId := 1, unitId := 10, index := 0, contentHash := 9,
    kind := "assignment", title := "Lab 3", text := "due Monday", updatedAt := 150 }

/-- Modelled from the spec (6, design note 9): a remote record, already
normalized into the fixed internal shape at the Remote Client Adapter
boundary. -/
structure RemoteRecord where
  externalId : Nat
  kind : String
  title : String
  body : String
  updatedAt : Int
deriving DecidableEq, Repr

/-- Modelled from the spec (3): a ContentUnit — a syncable text-bearing
artifact owned by one Course: external ID, kind, title, body text, remote
`updated_at`, `content_hash` of the normalized body, `deleted` flag, plus
the `dirty` flag that triggers re-chunking. -/
structure ContentUnit where
  externalId : Nat
  kind : String
  title : String
  body : String
  updatedAt : Int
  contentHash : Nat
  deleted : Bool
  dirty : Bool
deriving DecidableEq, Repr

/-- Modelled from the spec (3): normalization of body text before hashing. -/
def normalizeText (s : String) : String := s.trim

/-- Modelled from the spec (3): `content_hash`, a hash of the normalized
body text (a simple polynomial rolling hash). -/
def contentHashOf (s : String) : Nat :=
  (normalizeText s).foldl (fun h c => h * 131 + c.toNat) 7

/-- Modelled from the spec (4.1): the ContentUnit created on first sight of
an external ID (created dirty, which triggers chunking). -/
def freshUnit (r : RemoteRecord) : ContentUnit :=
  { externalId := r.externalId, kind := r.kind, title := r.title,
    body := r.body, updatedAt := r.updatedAt,
    contentHash := contentHashOf r.body, deleted := false, dirty := true }

/-- Modelled from the spec (4.1): the in-place update of an existing unit
whose normalized-text hash changed — the unit is updated and marked dirty. -/
def updateUnit (r : RemoteRecord) (v : ContentUnit) : ContentUnit :=
  if v.externalId = r.externalId then
    { v with
      kind := r.kind, title := r.title, body := r.body,
      updatedAt := r.updatedAt, contentHash := contentHashOf r.body,
      deleted := false, dirty := true }
  else v

/-- Modelled from the spec (4.1 per-record reconciliation): idempotent
upsert of one remote record into the local units.  No unit for the external
ID: create one.  Unit exists with unchanged normalized-text hash: skip (no
re-embedding).  Hash changed: update the unit and mark it dirty.  The `Bool`
reports whether the record caused churn (a create or a dirty-marking
update, i.e. re-chunking and re-embedding work). -/
def reconcileRecord (units : List ContentUnit) (r : RemoteRecord) :
    List ContentUnit × Bool :=
  match units.find? (fun u => u.externalId = r.externalId) with
  | Option.none => (units ++ [freshUnit r], true)
  | some u =>
    if u.contentHash = contentHashOf r.body then (units, false)
    else (units.map (updateUnit r), true)

/-- Modelled from the spec (4.1): reconcile one remote page record by
record; returns the new units and the number of records that caused churn. -/
def reconcilePage (units : List ContentUnit) :
    List RemoteRecord → List ContentUnit × Nat
  | [] => (units, 0)
  | r :: rs =>
    let step := reconcileRecord units r
    let rest := reconcilePage step.1 rs
    (rest.1, (if step.2 then 1 else 0) + rest.2)

/-- The local unit stored for an external ID, if any. -/
def lookupUnit (units : List ContentUnit) (id : Nat) : Option ContentUnit :=
  units.find? (fun u => u.externalId = id)

/-- A remote record is in sync with the local units: a unit exists for its
external ID and stores the hash of the record's normalized body. -/
def syncedWith (units : List ContentUnit) (r : RemoteRecord) : Prop :=
  ∃ u, lookupUnit units r.externalId = some u ∧
    u.contentHash = contentHashOf r.body

/-- Two concrete remote records with distinct external IDs. -/
def demoRecord1 : RemoteRecord :=
  { externalId := 1, kind := "assignment", title := "Lab 3",
    body := "due Friday", updatedAt := 100 }

/-- A second concrete remote record. -/
def demoRecord2 : RemoteRecord :=
  { externalId := 2, kind := "announcement", title := "Welcome",
    body := "hello", updatedAt := 50 }

/-- Modelled from the spec (3): the status of a finalized SyncRun.
`statusPartial` models the status the spec spells "partial" (that word is
reserved in Lean). -/
inductive SyncStatus where
  | succeeded
  | statusPartial
  | failed
deriving DecidableEq, Repr

/-- Modelled from the spec (3, 4.1): one error recorded on a SyncRun — the
content type and the page index at which rate-limit retries exhausted. -/
structure SyncError where
  contentType : Nat
  page : Nat
deriving DecidableEq, Repr

/-- Modelled from the spec (4.1, 6): the remote listing for one content
type — the page sequence the adapter serves, plus the page index (if any) at
which this run's bounded rate-limit retries exhaust.  The backoff loop
itself is abstracted to its outcome: a page fetch either succeeds or
exhausts its attempts. -/
structure ContentTypeFeed where
  pages : List (List RemoteRecord)
  failAt : Option Nat

/-- The outcome of the page loop for one content type. -/
structure FeedRun where
  units : List ContentUnit
  cursor : Nat
  fetched : List Nat
  rateLimited : Bool

/-- Modelled from the spec (4.1): the page loop for one content type.  Each
successfully fetched page is committed (reconciled) and only then is the
cursor advanced past it; when rate-limit retries exhaust at a page, the loop
stops with the cursor still at that uncommitted page and reports the
failure.  `fetched` records the page indices this run requested from the
adapter. -/
def runFeed (units : List ContentUnit) (remaining : List (List RemoteRecord))
    (idx : Nat) (failAt : Option Nat) : FeedRun :=
  match remaining with
  | [] => { units := units, cursor := idx, fetched := [], rateLimited := false }
  | p :: rest =>
    if failAt = some idx then
      { units := units, cursor := idx, fetched := [idx], rateLimited := true }
    else
      { units := (runFeed (reconcilePage units p).1 rest (idx + 1) failAt).units,
        cursor := (runFeed (reconcilePage units p).1 rest (idx + 1) failAt).cursor,
        fetched := idx ::
          (runFeed (reconcilePage units p).1 rest (idx + 1) failAt).fetched,
        rateLimited :=
          (runFeed (reconcilePage units p).1 rest (idx + 1) failAt).rateLimited }

/-- Modelled from the spec (4.1): run one content type from its stored
cursor — pages before the cursor are already durably committed and are not
re-fetched. -/
def syncFeed (units : List ContentUnit) (feed : ContentTypeFeed)
    (cursor : Nat) : FeedRun :=
  runFeed units (feed.pages.drop cursor) cursor feed.failAt

/-- The accumulated outcome of a whole course sync: final units, the new
cursor per content type, and the recorded errors. -/
structure CourseRun where
  units : List ContentUnit
  cursors : List Nat
  errors : List SyncError

/-- Modelled from the spec (4.1): run the content types in order; a failure
on one content type records an error and moves on to the next rather than
aborting the run, and never rolls back committed upserts. -/
def syncFeeds (units : List ContentUnit) (i : Nat) :
    List (ContentTypeFeed × Nat) → CourseRun
  | [] => { units := units, cursors := [], errors := [] }
  | fc :: rest =>
    { units := (syncFeeds (syncFeed units fc.1 fc.2).units (i + 1) rest).units,
      cursors := (syncFeed units fc.1 fc.2).cursor ::
        (syncFeeds (syncFeed units fc.1 fc.2).units (i + 1) rest).cursors,
      errors :=
        (if (syncFeed units fc.1 fc.2).rateLimited then
          [{ contentType := i, page := (syncFeed units fc.1 fc.2).cursor }]
         else []) ++
        (syncFeeds (syncFeed units fc.1 fc.2).units (i + 1) rest).errors }

/-- Modelled from the spec (3, 4.1): the finalized status — errors recorded
but the run not aborted yield the status the spec spells "partial". -/
def statusOf (errors : List SyncError) : SyncStatus :=
  if errors = [] then SyncStatus.succeeded else SyncStatus.statusPartial

/-- Modelled from the spec (4.1): `sync(course_id) -> SyncRun` — run every
content type of the course from its stored cursor and finalize the status. -/
def sync (units : List ContentUnit)
    (feeds : List (ContentTypeFeed × Nat)) : CourseRun × SyncStatus :=
  (syncFeeds units 0 feeds, statusOf (syncFeeds units 0 feeds).errors)

/-- Modelled from the spec (6, 7): the outcome of one course's SyncRun as
seen by the aggregate endpoint — how many assignments the run synced, and
whether (and with what message) it failed. -/
structure CourseRunOutcome where
  courseId : Nat
  assignmentsSynced : Nat
  failedRun : Bool
  errorMsg : String
deriving DecidableEq, Repr

/-- The `POST /courses/sync` response body: the `courses_synced` and
`assignments_synced` fields the courses page reads
(src/frontend/src/app/dashboard/courses/page.tsx), plus the enumerated
failures the spec requires (7). -/
structure SyncSummary where
  courses_synced : Nat
  assignments_synced : Nat
  failures : List String
deriving DecidableEq, Repr

/-- Modelled from the spec (6, 7): `POST /courses/sync` triggers a Sync
Engine run per accessible course and always returns one aggregate summary —
counts aggregated across the SyncRuns and the failures enumerated in the
response — never a hard error. -/
def postCoursesSync (runs : List CourseRunOutcome) : SyncSummary :=
  { courses_synced := (runs.filter (fun r => !r.failedRun)).length,
    assignments_synced := (runs.map (fun r => r.assignmentsSynced)).sum,
    failures := (runs.filter (fun r => r.failedRun)).map (fun r => r.errorMsg) }

/-! ## Lemmas, claim theorems and witnesses -/

theorem chunkLE_iff (sim : Chunk → ℚ) (a b : Chunk) :
    chunkLE sim a b = true ↔
      (sim b < sim a ∨ (sim a = sim b ∧
        (b.updatedAt < a.updatedAt ∨
          (a.updatedAt = b.updatedAt ∧ a.index ≤ b.index)))) := by
  simp [chunkLE]

theorem chunkLE_trans (sim : Chunk → ℚ) (a b c : Chunk)
    (hab : chunkLE sim a b = true) (hbc : chunkLE sim b c = true) :
    chunkLE sim a c = true := by
  rw [chunkLE_iff] at hab hbc ⊢
  rcases hab with h | ⟨h1, hq⟩ <;> rcases hbc with g | ⟨g1, gq⟩
  · exact Or.inl (g.trans h)
  · exact Or.inl (g1 ▸ h)
  · exact Or.inl (by rw [h1]; exact g)
  · exact Or.inr ⟨h1.trans g1, by omega⟩

theorem chunkLE_total (sim : Chunk → ℚ) (a b : Chunk) :
    (chunkLE sim a b || chunkLE sim b a) = true := by
  simp only [Bool.or_eq_true, chunkLE_iff]
  by_cases h1 : sim a = sim b
  · by_cases h2 : a.updatedAt = b.updatedAt
    · rcases le_total a.index b.index with h | h
      · exact Or.inl (Or.inr ⟨h1, Or.inr ⟨h2, h⟩⟩)
      · exact Or.inr (Or.inr ⟨h1.symm, Or.inr ⟨h2.symm, h⟩⟩)
    · rcases lt_or_gt_of_ne h2 with h | h
      · exact Or.inr (Or.inr ⟨h1.symm, Or.inl h⟩)
      · exact Or.inl (Or.inr ⟨h1, Or.inl h⟩)
  · rcases lt_or_gt_of_ne h1 with h | h
    · exact Or.inr (Or.inl h)
    · exact Or.inl (Or.inl h)

theorem clamp01_nonneg (x : ℚ) : 0 ≤ clamp01 x := le_max_left 0 _

theorem clamp01_le_one (x : ℚ) : clamp01 x ≤ 1 := by
  unfold clamp01
  rcases le_total x 1 with h | h <;> simp [h]

theorem clamp01_mono {x y : ℚ} (h : x ≤ y) : clamp01 x ≤ clamp01 y :=
  max_le_max le_rfl (min_le_min le_rfl h)

theorem clamp01_eq_self {x : ℚ} (h0 : 0 ≤ x) (h1 : x ≤ 1) : clamp01 x = x := by
  unfold clamp01
  rw [min_eq_right h1, max_eq_right h0]

theorem le_foldl_max (a : ℚ) (l : List ℚ) : a ≤ l.foldl max a := by
  induction l generalizing a with
  | nil => exact le_rfl
  | cons x xs ih => exact le_trans (le_max_left a x) (ih (max a x))

theorem foldl_max_le {b : ℚ} (a : ℚ) (l : List ℚ) (ha : a ≤ b)
    (hl : ∀ x ∈ l, x ≤ b) : l.foldl max a ≤ b := by
  induction l generalizing a with
  | nil => exact ha
  | cons x xs ih =>
    exact ih (max a x) (max_le ha (hl x (by simp)))
      (fun y hy => hl y (by simp [hy]))

theorem foldl_min_le (a : ℚ) (l : List ℚ) : l.foldl min a ≤ a := by
  induction l generalizing a with
  | nil => exact le_rfl
  | cons x xs ih => exact le_trans (ih (min a x)) (min_le_left a x)

theorem le_foldl_min {b : ℚ} (a : ℚ) (l : List ℚ) (ha : b ≤ a)
    (hl : ∀ x ∈ l, b ≤ x) : b ≤ l.foldl min a := by
  induction l generalizing a with
  | nil => exact ha
  | cons x xs ih =>
    exact ih (min a x) (le_min ha (hl x (by simp)))
      (fun y hy => hl y (by simp [hy]))

theorem spread_nonneg {scores : List ℚ} (h : scores ≠ []) :
    0 ≤ spread scores := by
  cases scores with
  | nil => exact absurd rfl h
  | cons s rest =>
    have h1 : s ≤ rest.foldl max s := le_foldl_max s rest
    have h2 : rest.foldl min s ≤ s := foldl_min_le s rest
    simp only [spread, maxScore, minScore]
    linarith

theorem spread_le_one {scores : List ℚ}
    (hb : ∀ x ∈ scores, 0 ≤ x ∧ x ≤ 1) (h : scores ≠ []) :
    spread scores ≤ 1 := by
  cases scores with
  | nil => exact absurd rfl h
  | cons s rest =>
    have h1 : rest.foldl max s ≤ 1 :=
      foldl_max_le s rest (hb s (by simp)).2
        (fun y hy => (hb y (by simp [hy])).2)
    have h2 : (0 : ℚ) ≤ rest.foldl min s :=
      le_foldl_min s rest (hb s (by simp)).1
        (fun y hy => (hb y (by simp [hy])).1)
    simp only [spread, maxScore, minScore]
    linarith

theorem topScore_bounds {scores : List ℚ}
    (hb : ∀ x ∈ scores, 0 ≤ x ∧ x ≤ 1) (h : scores ≠ []) :
    0 ≤ topScore scores ∧ topScore scores ≤ 1 := by
  cases scores with
  | nil => exact absurd rfl h
  | cons s rest => exact hb s (by simp)

theorem confidenceOf_ne_nil {scores : List ℚ} (h : scores ≠ []) :
    confidenceOf scores =
      clamp01 ((6 * topScore scores + 4 * agreement scores) / 10) := by
  cases scores with
  | nil => exact absurd rfl h
  | cons s rest => rfl

theorem confidenceOf_bounds (scores : List ℚ) :
    0 ≤ confidenceOf scores ∧ confidenceOf scores ≤ 1 := by
  cases scores with
  | nil => exact ⟨le_rfl, by norm_num [confidenceOf]⟩
  | cons s rest => exact ⟨clamp01_nonneg _, clamp01_le_one _⟩

theorem search_nil_filter (sim : Chunk → ℚ) (topK : Nat) (store : List Chunk) :
    search sim [] topK store = [] := by
  have h : store.filter (fun c => c.courseId ∈ ([] : List Nat)) = [] := by
    simp
  simp [search, h]

/-- C10: `getUrgency` is total over its inputs and returns exactly one of the
five labels; it returns `none` exactly on a null due date, `overdue` exactly
when the due date is strictly past, `urgent` exactly when due within the next
24 hours, `soon` exactly when due in at least 24 hours but under 3 days, and
`upcoming` exactly when due in 3 days or more — an exhaustive, mutually
exclusive partition of all non-null due dates. -/
theorem getUrgency_partition (dd : Option Int) (now : Int) :
    (getUrgency dd now = Urgency.none ↔ dd = Option.none) ∧
    (∀ d : Int, dd = some d →
      ((getUrgency dd now = Urgency.overdue ↔ d - now < 0) ∧
       (getUrgency dd now = Urgency.urgent ↔
         0 ≤ d - now ∧ d - now < 24 * 60 * 60 * 1000) ∧
       (getUrgency dd now = Urgency.soon ↔
         24 * 60 * 60 * 1000 ≤ d - now ∧ d - now < 3 * 24 * 60 * 60 * 1000) ∧
       (getUrgency dd now = Urgency.upcoming ↔
         3 * 24 * 60 * 60 * 1000 ≤ d - now))) := by
  cases dd with
  | none => simp [getUrgency]
  | some d =>
    constructor
    · simp only [getUrgency]
      split_ifs <;> simp
    · intro d' h
      injection h with h
      subst h
      simp only [getUrgency]
      split_ifs with h1 h2 h3 <;>
        refine ⟨?_, ?_, ?_, ?_⟩ <;> simp <;> omega

/-- C10 witness: at a due date 1000 ms in the future the classification is
`urgent`, and the characterization instantiates there. -/
theorem getUrgency_partition_witness :
    getUrgency (some 1000) 0 = Urgency.urgent ∧
    (getUrgency (some 1000) 0 = Urgency.urgent ↔
      0 ≤ (1000 : Int) - 0 ∧ (1000 : Int) - 0 < 24 * 60 * 60 * 1000) :=
  ⟨by decide, ((getUrgency_partition (some 1000) 0).2 1000 rfl).2.1⟩

/-- C1: access isolation at the Index Store query boundary — every chunk
returned by `search` belongs to a course in `access_filter`, and a chunk of
an excluded course never appears in the results, regardless of its similarity
score (the statement holds for every scoring function `sim`). -/
theorem search_access_isolation (sim : Chunk → ℚ) (accessFilter : List Nat)
    (topK : Nat) (store : List Chunk) :
    (∀ c ∈ search sim accessFilter topK store, c.courseId ∈ accessFilter) ∧
    (∀ c, c.courseId ∉ accessFilter →
      c ∉ search sim accessFilter topK store) := by
  have key : ∀ c ∈ search sim accessFilter topK store, c.courseId ∈ accessFilter := by
    intro c hc
    have h1 : c ∈ (store.filter (fun x => x.courseId ∈ accessFilter)).mergeSort
        (chunkLE sim) := List.mem_of_mem_take hc
    have h2 := List.mem_mergeSort.mp h1
    have := List.of_mem_filter h2
    simpa using this
  exact ⟨key, fun c hc hmem => hc (key c hmem)⟩

/-- C1 witness: with access filter containing only course 1, the course-2
chunk is excluded from the results even though its similarity score (1)
beats the accessible chunk's (1/2). -/
theorem search_access_isolation_witness :
    demoChunkB.courseId ∉ [1] ∧
    demoChunkB ∉ search demoSim [1] 5 [demoChunkA, demoChunkB] :=
  ⟨by decide,
    (search_access_isolation demoSim [1] 5 [demoChunkA, demoChunkB]).2
      demoChunkB (by decide)⟩

/-- C7: `search` returns at most `top_k` chunks, ordered by the deterministic
ranking (descending similarity, ties by most-recent `updated_at`, then chunk
index ascending — a total order); and since the access filter is a hard
predicate applied to the whole store before ranking, whenever at least
`top_k` accessible chunks exist exactly `top_k` are returned. -/
theorem search_ranking (sim : Chunk → ℚ) (accessFilter : List Nat)
    (topK : Nat) (store : List Chunk) :
    (search sim accessFilter topK store).length ≤ topK ∧
    List.Pairwise (fun a b => chunkLE sim a b = true)
      (search sim accessFilter topK store) ∧
    (∀ a b : Chunk, chunkLE sim a b = true ∨ chunkLE sim b a = true) ∧
    (topK ≤ (store.filter (fun c => c.courseId ∈ accessFilter)).length →
      (search sim accessFilter topK store).length = topK) := by
  refine ⟨?_, ?_, ?_, ?_⟩
  · simp only [search]
    exact List.length_take_le topK _
  · exact ((List.sorted_mergeSort (chunkLE_trans sim) (chunkLE_total sim)
      _).sublist (List.take_sublist _ _))
  · intro a b
    have := chunkLE_total sim a b
    rcases Bool.or_eq_true_iff.mp this with h | h
    · exact Or.inl h
    · exact Or.inr h
  · intro h
    simp only [search, List.length_take, List.length_mergeSort]
    omega

/-- C7 witness: with two accessible chunks and `top_k` equal to 1, exactly
one chunk is returned (the exact-`top_k` conclusion instantiates at a store
where two accessible matches exist). -/
theorem search_ranking_witness :
    (1 : Nat) ≤ ([demoChunkA, demoChunkB].filter
      (fun c => c.courseId ∈ [1, 2])).length ∧
    (search demoSim [1, 2] 1 [demoChunkA, demoChunkB]).length = 1 :=
  ⟨by decide,
    (search_ranking demoSim [1, 2] 1 [demoChunkA, demoChunkB]).2.2.2 (by decide)⟩

/-- C5: confidence lies between 0 and 1 for every retrieval outcome; with
source agreement held equal, the outcome with the greater top-match
similarity gets confidence at least as high; and with equal top-match
similarity, the outcome whose top-K scores are more spread out (mutually
dissimilar chunks) gets strictly lower confidence than the one whose scores
converge. -/
theorem confidence_bounds_and_monotonicity :
    (∀ scores : List ℚ, 0 ≤ confidenceOf scores ∧ confidenceOf scores ≤ 1) ∧
    (∀ sA sB : List ℚ, sA ≠ [] → sB ≠ [] →
      agreement sA = agreement sB → topScore sB < topScore sA →
      confidenceOf sB ≤ confidenceOf sA) ∧
    (∀ sA sB : List ℚ, sA ≠ [] → sB ≠ [] →
      (∀ x ∈ sA, 0 ≤ x ∧ x ≤ 1) → (∀ x ∈ sB, 0 ≤ x ∧ x ≤ 1) →
      topScore sA = topScore sB → spread sB < spread sA →
      confidenceOf sA < confidenceOf sB) := by
  refine ⟨confidenceOf_bounds, ?_, ?_⟩
  · intro sA sB hA hB hag htop
    rw [confidenceOf_ne_nil hA, confidenceOf_ne_nil hB]
    apply clamp01_mono
    linarith
  · intro sA sB hA hB hbA hbB htop hsp
    have ht := topScore_bounds hbA hA
    have ht' : 0 ≤ topScore sB ∧ topScore sB ≤ 1 := htop ▸ ht
    have hsA0 := spread_nonneg hA
    have hsA1 := spread_le_one hbA hA
    have hsB0 := spread_nonneg hB
    have hsB1 : spread sB ≤ 1 := le_of_lt (lt_of_lt_of_le hsp hsA1)
    rw [confidenceOf_ne_nil hA, confidenceOf_ne_nil hB,
      clamp01_eq_self (by simp only [agreement]; linarith [ht.1])
        (by simp only [agreement]; linarith [ht.2]),
      clamp01_eq_self (by simp only [agreement]; linarith [ht'.1])
        (by simp only [agreement]; linarith [ht'.2])]
    simp only [agreement]
    linarith [htop, hsp]

/-- C5 witness: at the score lists with spread 1/2 versus spread 0 and equal
top score, the spread-out outcome gets strictly lower confidence; and with
equal agreement, top score 1 beats top score 1/2. -/
theorem confidence_bounds_and_monotonicity_witness :
    confidenceOf [(1 : ℚ)/2, 0] < confidenceOf [(1 : ℚ)/2, 1/2] ∧
    confidenceOf [(1 : ℚ)/2, 1/2] ≤ confidenceOf [(1 : ℚ), 1] := by
  constructor
  · exact confidence_bounds_and_monotonicity.2.2 [(1 : ℚ)/2, 0] [(1 : ℚ)/2, 1/2]
      (by decide) (by decide)
      (by intro x hx; fin_cases hx <;> norm_num)
      (by intro x hx; fin_cases hx <;> norm_num)
      (by norm_num [topScore])
      (by norm_num [spread, maxScore, minScore])
  · exact confidence_bounds_and_monotonicity.2.1 [(1 : ℚ), 1] [(1 : ℚ)/2, 1/2]
      (by decide) (by decide)
      (by norm_num [agreement, spread, maxScore, minScore])
      (by norm_num [topScore])

/-- C4: whenever the Index Store search returns zero chunks, `answer` returns
the fixed no-content response with confidence exactly 0 (a valid response,
never a hard error); and for an empty effective access filter the response is
independent of the store contents, so it does not reveal whether matching
content exists. -/
theorem answer_no_content (sim : Chunk → ℚ) (accessFilter : List Nat)
    (store : List Chunk) :
    (search sim accessFilter retrievalK store = [] →
      answer sim accessFilter store =
        { answer := noContentAnswer, confidence := 0, sources := [],
          explanation := noContentExplanation }) ∧
    (∀ store' : List Chunk, answer sim [] store = answer sim [] store') := by
  constructor
  · intro h
    simp [answer, h]
  · intro store'
    simp [answer, search_nil_filter]

/-- C4 witness: over a nonempty store but an empty access filter, the answer
is the fixed no-content response with confidence 0, and it coincides with the
answer over an empty store. -/
theorem answer_no_content_witness :
    answer demoSim [] [demoChunkA] =
      { answer := noContentAnswer, confidence := 0, sources := [],
        explanation := noContentExplanation } ∧
    answer demoSim [] [demoChunkA] = answer demoSim [] [] :=
  ⟨(answer_no_content demoSim [] [demoChunkA]).1
      (search_nil_filter demoSim retrievalK [demoChunkA]),
    (answer_no_content demoSim [] [demoChunkA]).2 []⟩

/-- C8: every `POST /qa` response has exactly the shape the frontend QA page
deserializes — `answer`, `confidence`, `sources`, `explanation` with the
confidence between 0 and 1 and each source carrying `type`, `title`,
`excerpt`, `relevance_score` — and the page's assistant `Message` is built
from it field for field. -/
theorem postQA_response_shape (sim : Chunk → ℚ) (accessFilter : List Nat)
    (store : List Chunk) :
    0 ≤ (postQA sim accessFilter store).confidence ∧
    (postQA sim accessFilter store).confidence ≤ 1 ∧
    assistantMessageOf (postQA sim accessFilter store) =
      { role := FrontendRole.assistant,
        content := (postQA sim accessFilter store).answer,
        confidence := some (postQA sim accessFilter store).confidence,
        sources := some ((postQA sim accessFilter store).sources.map
          toFrontendSource),
        explanation := some (postQA sim accessFilter store).explanation } := by
  refine ⟨?_, ?_, rfl⟩
  · unfold postQA answer
    by_cases h : search sim accessFilter retrievalK store = []
    · simp [h]
    · simp only [h, if_neg h]
      exact (confidenceOf_bounds _).1
  · unfold postQA answer
    by_cases h : search sim accessFilter retrievalK store = []
    · simp [h]
    · simp only [h, if_neg h]
      exact (confidenceOf_bounds _).2

/-- C2: when a ContentUnit's `content_hash` changes, the replacing `upsert`
swaps the unit's chunk set as a whole: afterwards no chunk of the unit
carries the old hash, every new chunk is present, the unit's chunk set is
exactly the new set (never a mix of old and new), and chunks of other units
are untouched.  The replacement is a single atomic state transition, so no
query observes a mixed state. -/
theorem upsert_replaces_wholly (store newChunks : List Chunk)
    (uid oldHash newHash : Nat)
    (hold : ∀ c ∈ store, c.unitId = uid → c.contentHash = oldHash)
    (hnew : ∀ c ∈ newChunks, c.unitId = uid ∧ c.contentHash = newHash)
    (hne : oldHash ≠ newHash) :
    (∀ c ∈ upsert store uid newChunks,
      c.unitId = uid → c.contentHash ≠ oldHash) ∧
    (∀ c ∈ newChunks, c ∈ upsert store uid newChunks) ∧
    ((upsert store uid newChunks).filter (fun c => c.unitId = uid) =
      newChunks) ∧
    (∀ c ∈ store, c.unitId ≠ uid → c ∈ upsert store uid newChunks) := by
  refine ⟨?_, ?_, ?_, ?_⟩
  · intro c hc hcu
    rcases List.mem_append.mp hc with h | h
    · have := List.of_mem_filter h
      simp only [decide_eq_true_eq] at this
      exact absurd hcu this
    · have := (hnew c h).2
      rw [this]
      exact fun e => hne e.symm
  · intro c hc
    exact List.mem_append.mpr (Or.inr hc)
  · rw [upsert, List.filter_append]
    have h1 : (store.filter (fun c => c.unitId ≠ uid)).filter
        (fun c => c.unitId = uid) = [] := by
      rw [List.filter_filter]
      apply List.filter_eq_nil_iff.mpr
      intro c _
      by_cases h : c.unitId = uid <;> simp [h]
    have h2 : newChunks.filter (fun c => c.unitId = uid) = newChunks := by
      apply List.filter_eq_self.mpr
      intro c hc
      simpa using (hnew c hc).1
    rw [h1, h2, List.nil_append]
  · intro c hc hcu
    exact List.mem_append.mpr (Or.inl (List.mem_filter.mpr ⟨hc, by simpa using hcu⟩))

/-- C2 witness: replacing unit 10's single old-hash chunk with a new-hash
chunk leaves the unit's chunk set exactly the new set. -/
theorem upsert_replaces_wholly_witness :
    (upsert [demoChunkA, demoChunkB] 10 [demoChunkA2]).filter
      (fun c => c.unitId = 10) = [demoChunkA2] :=
  (upsert_replaces_wholly [demoChunkA, demoChunkB] [demoChunkA2] 10 7 9
    (by decide) (by decide) (by decide)).2.2.1

theorem updateUnit_externalId (r : RemoteRecord) (v : ContentUnit) :
    (updateUnit r v).externalId = v.externalId := by
  unfold updateUnit
  split <;> rfl

theorem reconcileRecord_ids (units : List ContentUnit) (r : RemoteRecord) :
    (reconcileRecord units r).1.map (fun u => u.externalId) =
      units.map (fun u => u.externalId) ++
        (if (lookupUnit units r.externalId).isNone then [r.externalId]
         else []) := by
  unfold reconcileRecord lookupUnit
  cases h : units.find? (fun u => u.externalId = r.externalId) with
  | none => simp [freshUnit]
  | some u =>
    by_cases hh : u.contentHash = contentHashOf r.body
    · simp [hh]
    · dsimp only
      rw [if_neg hh]
      simp only [Option.isNone_some, Bool.false_eq_true, if_false,
        List.append_nil, List.map_map, Function.comp_def]
      exact List.map_congr_left (fun v _ => updateUnit_externalId r v)

theorem reconcileRecord_nodup (units : List ContentUnit) (r : RemoteRecord)
    (h : (units.map (fun u => u.externalId)).Nodup) :
    ((reconcileRecord units r).1.map (fun u => u.externalId)).Nodup := by
  rw [reconcileRecord_ids]
  cases hl : lookupUnit units r.externalId with
  | none =>
    simp only [hl, Option.isNone_none, if_pos rfl]
    have hnot : ∀ x ∈ units, ¬x.externalId = r.externalId := by
      intro x hx
      have := List.find?_eq_none.mp hl x hx
      simpa using this
    simpa [List.nodup_append] using ⟨h, hnot⟩
  | some u => simpa [hl] using h

theorem reconcileRecord_synced_self (units : List ContentUnit)
    (r : RemoteRecord) : syncedWith (reconcileRecord units r).1 r := by
  unfold reconcileRecord
  cases h : units.find? (fun u => u.externalId = r.externalId) with
  | none =>
    refine ⟨freshUnit r, ?_, rfl⟩
    unfold lookupUnit
    dsimp only
    rw [List.find?_append, h, Option.none_or]
    simp [freshUnit]
  | some u =>
    by_cases hh : u.contentHash = contentHashOf r.body
    · exact ⟨u, by simpa [hh, lookupUnit] using h, hh⟩
    · refine ⟨updateUnit r u, ?_, ?_⟩
      · unfold lookupUnit
        dsimp only
        rw [if_neg hh]
        have hp : (fun u : ContentUnit => decide (u.externalId = r.externalId)) ∘
            updateUnit r = fun u : ContentUnit =>
              decide (u.externalId = r.externalId) := by
          funext v
          simp [updateUnit_externalId]
        rw [List.find?_map, hp, h]
        rfl
      · have hu : u.externalId = r.externalId := by
          simpa using List.find?_some h
        unfold updateUnit
        rw [if_pos hu]

theorem reconcileRecord_lookup_other (units : List ContentUnit)
    (r : RemoteRecord) (id : Nat) (hid : id ≠ r.externalId) :
    lookupUnit (reconcileRecord units r).1 id = lookupUnit units id := by
  unfold reconcileRecord
  cases h : units.find? (fun u => u.externalId = r.externalId) with
  | none =>
    unfold lookupUnit
    dsimp only
    rw [List.find?_append]
    have hfr : List.find? (fun u : ContentUnit => u.externalId = id)
        [freshUnit r] = Option.none := by
      have hne : ¬r.externalId = id := fun e => hid (e.symm)
      simp [List.find?, freshUnit, hne]
    rw [hfr]
    cases units.find? (fun u : ContentUnit => u.externalId = id) <;> rfl
  | some u =>
    by_cases hh : u.contentHash = contentHashOf r.body
    · simp [hh]
    · dsimp only
      rw [if_neg hh]
      unfold lookupUnit
      dsimp only
      have hp : (fun u : ContentUnit => decide (u.externalId = id)) ∘
          updateUnit r = fun u : ContentUnit => decide (u.externalId = id) := by
        funext v
        simp [updateUnit_externalId]
      rw [List.find?_map, hp]
      cases hf : units.find? (fun u : ContentUnit => u.externalId = id) with
      | none => rfl
      | some v =>
        have hv : v.externalId = id := by simpa using List.find?_some hf
        have huv : updateUnit r v = v := by
          unfold updateUnit
          rw [if_neg (by rw [hv]; exact hid)]
        simp [huv]

theorem reconcileRecord_of_synced (units : List ContentUnit)
    (r : RemoteRecord) (h : syncedWith units r) :
    reconcileRecord units r = (units, false) := by
  rcases h with ⟨u, hu, hh⟩
  unfold reconcileRecord
  unfold lookupUnit at hu
  rw [hu]
  dsimp only
  rw [if_pos hh]

theorem reconcilePage_lookup_other (units : List ContentUnit)
    (page : List RemoteRecord) (id : Nat)
    (h : id ∉ page.map (fun r => r.externalId)) :
    lookupUnit (reconcilePage units page).1 id = lookupUnit units id := by
  induction page generalizing units with
  | nil => rfl
  | cons p ps ih =>
    simp only [List.map_cons, List.mem_cons, not_or] at h
    calc lookupUnit (reconcilePage (reconcileRecord units p).1 ps).1 id
        = lookupUnit (reconcileRecord units p).1 id := ih _ h.2
      _ = lookupUnit units id :=
          reconcileRecord_lookup_other units p id h.1

theorem reconcilePage_synced (units : List ContentUnit)
    (page : List RemoteRecord)
    (hnd : (page.map (fun r => r.externalId)).Nodup) :
    ∀ r ∈ page, syncedWith (reconcilePage units page).1 r := by
  induction page generalizing units with
  | nil => intro r hr; cases hr
  | cons p ps ih =>
    intro r hr
    have hnd' : (ps.map (fun r => r.externalId)).Nodup :=
      (List.nodup_cons.mp (by simpa using hnd)).2
    rcases List.mem_cons.mp hr with rfl | hr'
    · have hpn : r.externalId ∉ ps.map (fun q => q.externalId) :=
        (List.nodup_cons.mp (by simpa using hnd)).1
      rcases reconcileRecord_synced_self units r with ⟨u, hu, hh⟩
      refine ⟨u, ?_, hh⟩
      calc lookupUnit (reconcilePage (reconcileRecord units r).1 ps).1
              r.externalId
          = lookupUnit (reconcileRecord units r).1 r.externalId :=
            reconcilePage_lookup_other _ ps r.externalId hpn
        _ = some u := hu
    · exact ih _ hnd' r hr'

theorem reconcilePage_of_synced (units : List ContentUnit)
    (page : List RemoteRecord) (h : ∀ r ∈ page, syncedWith units r) :
    reconcilePage units page = (units, 0) := by
  induction page with
  | nil => rfl
  | cons p ps ih =>
    have hstep : reconcileRecord units p = (units, false) :=
      reconcileRecord_of_synced units p (h p (by simp))
    unfold reconcilePage
    rw [hstep]
    dsimp only
    rw [ih (fun r hr => h r (List.mem_cons_of_mem _ hr))]
    simp

theorem reconcilePage_ids_extend (units : List ContentUnit)
    (page : List RemoteRecord) :
    List.IsPrefix (units.map (fun u => u.externalId))
      ((reconcilePage units page).1.map (fun u => u.externalId)) := by
  induction page generalizing units with
  | nil => exact List.prefix_refl _
  | cons p ps ih =>
    have h1 : List.IsPrefix (units.map (fun u => u.externalId))
        ((reconcileRecord units p).1.map (fun u => u.externalId)) := by
      rw [reconcileRecord_ids]
      exact List.prefix_append _ _
    exact h1.trans (ih _)

theorem reconcilePage_mem_ids (units : List ContentUnit)
    (page : List RemoteRecord)
    (hnd : (page.map (fun r => r.externalId)).Nodup) :
    ∀ r ∈ page, r.externalId ∈
      (reconcilePage units page).1.map (fun u => u.externalId) := by
  intro r hr
  rcases reconcilePage_synced units page hnd r hr with ⟨u, hu, _⟩
  have hm : u ∈ (reconcilePage units page).1 := List.mem_of_find?_eq_some hu
  have hid : u.externalId = r.externalId := by simpa using List.find?_some hu
  exact hid ▸ List.mem_map_of_mem _ hm

theorem reconcilePage_nodup (units : List ContentUnit)
    (page : List RemoteRecord)
    (h : (units.map (fun u => u.externalId)).Nodup) :
    ((reconcilePage units page).1.map (fun u => u.externalId)).Nodup := by
  induction page generalizing units with
  | nil => exact h
  | cons p ps ih => exact ih _ (reconcileRecord_nodup units p h)

/-- C3: syncing the same remote page twice is idempotent — after two
reconciliations there is exactly one local ContentUnit per external ID on the
page (no duplicates, given a duplicate-free starting state and a listing that
names each external ID once); the second reconciliation leaves the units
unchanged with zero churn (no re-embedding, no chunk replacement); and in
general a record whose normalized-text hash equals the stored `content_hash`
is skipped. -/
theorem sync_page_idempotent (units : List ContentUnit)
    (page : List RemoteRecord)
    (hu : (units.map (fun u => u.externalId)).Nodup)
    (hp : (page.map (fun r => r.externalId)).Nodup) :
    ((reconcilePage units page).1.map (fun u => u.externalId)).Nodup ∧
    (∀ r ∈ page,
      ((reconcilePage (reconcilePage units page).1 page).1.map
        (fun u => u.externalId)).count r.externalId = 1) ∧
    reconcilePage (reconcilePage units page).1 page =
      ((reconcilePage units page).1, 0) ∧
    (∀ (us : List ContentUnit) (r : RemoteRecord) (u : ContentUnit),
      lookupUnit us r.externalId = some u →
      u.contentHash = contentHashOf r.body →
      reconcileRecord us r = (us, false)) := by
  have hsync := reconcilePage_synced units page hp
  have hsecond : reconcilePage (reconcilePage units page).1 page =
      ((reconcilePage units page).1, 0) :=
    reconcilePage_of_synced _ _ hsync
  have hnd1 := reconcilePage_nodup units page hu
  refine ⟨hnd1, ?_, hsecond, ?_⟩
  · intro r hr
    rw [hsecond]
    exact List.count_eq_one_of_mem hnd1
      (reconcilePage_mem_ids units page hp r hr)
  · intro us r u hl hh
    exact reconcileRecord_of_synced us r ⟨u, hl, hh⟩

/-- C3 witness: reconciling a two-record page a second time changes nothing
and reports zero churn. -/
theorem sync_page_idempotent_witness :
    reconcilePage (reconcilePage [] [demoRecord1, demoRecord2]).1
        [demoRecord1, demoRecord2] =
      ((reconcilePage [] [demoRecord1, demoRecord2]).1, 0) :=
  (sync_page_idempotent [] [demoRecord1, demoRecord2]
    (by decide) (by decide)).2.2.1

theorem runFeed_none (units : List ContentUnit)
    (remaining : List (List RemoteRecord)) (idx : Nat) :
    (runFeed units remaining idx Option.none).cursor = idx + remaining.length ∧
    (runFeed units remaining idx Option.none).rateLimited = false := by
  induction remaining generalizing units idx with
  | nil => exact ⟨rfl, rfl⟩
  | cons p rest ih =>
    unfold runFeed
    rw [if_neg (by simp)]
    dsimp only
    rcases ih (reconcilePage units p).1 (idx + 1) with ⟨h1, h2⟩
    refine ⟨?_, h2⟩
    rw [h1]
    simp only [List.length_cons]
    omega

theorem runFeed_fail (units : List ContentUnit)
    (remaining : List (List RemoteRecord)) (idx j : Nat)
    (h1 : idx ≤ j) (h2 : j < idx + remaining.length) :
    (runFeed units remaining idx (some j)).cursor = j ∧
    (runFeed units remaining idx (some j)).rateLimited = true := by
  induction remaining generalizing units idx with
  | nil => simp at h2; omega
  | cons p rest ih =>
    by_cases he : j = idx
    · subst he
      unfold runFeed
      rw [if_pos rfl]
      exact ⟨rfl, rfl⟩
    · unfold runFeed
      rw [if_neg (by simpa using he)]
      dsimp only
      exact ih (reconcilePage units p).1 (idx + 1) (by omega)
        (by simp at h2 ⊢; omega)

theorem runFeed_fetched_ge (units : List ContentUnit)
    (remaining : List (List RemoteRecord)) (idx : Nat) (failAt : Option Nat) :
    ∀ k ∈ (runFeed units remaining idx failAt).fetched, idx ≤ k := by
  induction remaining generalizing units idx with
  | nil => intro k hk; cases hk
  | cons p rest ih =>
    intro k hk
    unfold runFeed at hk
    by_cases hf : failAt = some idx
    · rw [if_pos hf] at hk
      simp at hk
      omega
    · rw [if_neg hf] at hk
      dsimp only at hk
      rcases List.mem_cons.mp hk with rfl | hk'
      · exact le_rfl
      · have := ih (reconcilePage units p).1 (idx + 1) k hk'
        omega

theorem runFeed_ids_extend (units : List ContentUnit)
    (remaining : List (List RemoteRecord)) (idx : Nat) (failAt : Option Nat) :
    List.IsPrefix (units.map (fun u => u.externalId))
      ((runFeed units remaining idx failAt).units.map
        (fun u => u.externalId)) := by
  induction remaining generalizing units idx with
  | nil => exact List.prefix_refl _
  | cons p rest ih =>
    unfold runFeed
    by_cases hf : failAt = some idx
    · rw [if_pos hf]
    · rw [if_neg hf]
      dsimp only
      exact (reconcilePage_ids_extend units p).trans
        (ih (reconcilePage units p).1 (idx + 1))

theorem reconcileRecord_mem_id (units : List ContentUnit) (r : RemoteRecord) :
    r.externalId ∈ (reconcileRecord units r).1.map (fun u => u.externalId) := by
  rcases reconcileRecord_synced_self units r with ⟨u, hu, _⟩
  have hm : u ∈ (reconcileRecord units r).1 := List.mem_of_find?_eq_some hu
  have hid : u.externalId = r.externalId := by simpa using List.find?_some hu
  exact hid ▸ List.mem_map_of_mem _ hm

theorem reconcilePage_mem_ids_all (units : List ContentUnit)
    (page : List RemoteRecord) :
    ∀ r ∈ page, r.externalId ∈
      (reconcilePage units page).1.map (fun u => u.externalId) := by
  induction page generalizing units with
  | nil => intro r hr; cases hr
  | cons p ps ih =>
    intro r hr
    rcases List.mem_cons.mp hr with rfl | hr'
    · have h1 := reconcileRecord_mem_id units r
      exact (reconcilePage_ids_extend (reconcileRecord units r).1 ps).subset h1
    · exact ih _ r hr'

theorem runFeed_committed (units : List ContentUnit)
    (remaining : List (List RemoteRecord)) (idx : Nat) (failAt : Option Nat) :
    ∀ (n : Nat) (hn : n < remaining.length),
      (∀ j, failAt = some j → idx + n < j) →
      ∀ r ∈ remaining.get ⟨n, hn⟩,
        r.externalId ∈
          (runFeed units remaining idx failAt).units.map
            (fun u => u.externalId) := by
  induction remaining generalizing units idx with
  | nil => intro n hn; exact absurd hn (Nat.not_lt_zero n)
  | cons p rest ih =>
    intro n hn hj r hr
    unfold runFeed
    by_cases hf : failAt = some idx
    · exfalso
      have := hj idx hf
      omega
    · rw [if_neg hf]
      dsimp only
      cases n with
      | zero =>
        have h1 : r.externalId ∈
            (reconcilePage units p).1.map (fun u => u.externalId) :=
          reconcilePage_mem_ids_all units p r hr
        exact (runFeed_ids_extend (reconcilePage units p).1 rest (idx + 1)
          failAt).subset h1
      | succ m =>
        have hm : m < rest.length := by simpa using hn
        exact ih (reconcilePage units p).1 (idx + 1) m hm
          (fun j hjf => by have := hj j hjf; omega) r (by simpa using hr)

/-- C6: when rate-limit retries exhaust on a page of one content type, the
error is recorded on the SyncRun and the run proceeds to the next content
type (its cursor fully advances) instead of aborting; the run's status is
the one the spec spells "partial"; the cursor of the failing content type
stops exactly at the first uncommitted page, so every record of a page
committed before the failure is still present in the final units (partial
progress is never rolled back); and a retried run of that content type
starts from the stored cursor: it fetches only pages at or after the failure
point and completes, never re-fetching committed pages. -/
theorem sync_rate_limit_recovery (units : List ContentUnit)
    (feedA feedB : ContentTypeFeed) (cA cB j : Nat)
    (hfa : feedA.failAt = some j)
    (hj1 : cA ≤ j) (hj2 : j < feedA.pages.length)
    (hfb : feedB.failAt = Option.none)
    (hcb : cB ≤ feedB.pages.length) :
    (sync units [(feedA, cA), (feedB, cB)]).2 = SyncStatus.statusPartial ∧
    (sync units [(feedA, cA), (feedB, cB)]).1.errors =
      [{ contentType := 0, page := j }] ∧
    (sync units [(feedA, cA), (feedB, cB)]).1.cursors =
      [j, feedB.pages.length] ∧
    (∀ (n : Nat) (hn : n < (feedA.pages.drop cA).length),
      cA + n < j →
      ∀ r ∈ (feedA.pages.drop cA).get ⟨n, hn⟩,
        r.externalId ∈
          (sync units [(feedA, cA), (feedB, cB)]).1.units.map
            (fun u => u.externalId)) ∧
    (∀ k ∈ (syncFeed (sync units [(feedA, cA), (feedB, cB)]).1.units
        { pages := feedA.pages, failAt := Option.none } j).fetched, j ≤ k) ∧
    (syncFeed (sync units [(feedA, cA), (feedB, cB)]).1.units
        { pages := feedA.pages, failAt := Option.none } j).cursor =
      feedA.pages.length := by
  have hlenA : (feedA.pages.drop cA).length = feedA.pages.length - cA :=
    List.length_drop cA feedA.pages
  have hA := runFeed_fail units (feedA.pages.drop cA) cA j hj1 (by omega)
  have hB := runFeed_none
    (runFeed units (feedA.pages.drop cA) cA (some j)).units
    (feedB.pages.drop cB) cB
  have hlenB : (feedB.pages.drop cB).length = feedB.pages.length - cB :=
    List.length_drop cB feedB.pages
  have hAfeed : syncFeed units feedA cA =
      runFeed units (feedA.pages.drop cA) cA (some j) := by
    unfold syncFeed
    rw [hfa]
  have hBfeed : ∀ u : List ContentUnit, syncFeed u feedB cB =
      runFeed u (feedB.pages.drop cB) cB Option.none := by
    intro u
    unfold syncFeed
    rw [hfb]
  refine ⟨?_, ?_, ?_, ?_, ?_, ?_⟩
  · simp only [sync, syncFeeds, statusOf, hAfeed, hBfeed, hA.2, hB.2]
    simp
  · simp only [sync, syncFeeds, hAfeed, hBfeed, hA.1, hA.2, hB.2]
    simp
  · have hBcur : cB + (feedB.pages.drop cB).length = feedB.pages.length := by
      rw [hlenB]
      omega
    simp only [sync, syncFeeds, hAfeed, hBfeed, hA.1, hB.1, hBcur]
  · intro n hn hcj r hr
    have h1 : r.externalId ∈
        (runFeed units (feedA.pages.drop cA) cA (some j)).units.map
          (fun u => u.externalId) :=
      runFeed_committed units (feedA.pages.drop cA) cA (some j) n hn
        (fun j' hj' => by injection hj' with e; omega) r hr
    have h2 := runFeed_ids_extend
      (runFeed units (feedA.pages.drop cA) cA (some j)).units
      (feedB.pages.drop cB) cB Option.none
    simp only [sync, syncFeeds, hAfeed, hBfeed]
    exact h2.subset h1
  · intro k hk
    unfold syncFeed at hk
    exact runFeed_fetched_ge _ _ j _ k hk
  · unfold syncFeed
    dsimp only
    have := runFeed_none (sync units [(feedA, cA), (feedB, cB)]).1.units
      (feedA.pages.drop j) j
    rw [this.1, List.length_drop]
    omega

/-- C6 witness: with page 1 of the first content type committed and a
rate-limit exhaustion on page 2, the finalized run status is the one the
spec spells "partial". -/
theorem sync_rate_limit_recovery_witness :
    (sync []
      [({ pages := [[demoRecord1], [demoRecord2]], failAt := some 1 }, 0),
       ({ pages := [], failAt := Option.none }, 0)]).2 =
      SyncStatus.statusPartial :=
  (sync_rate_limit_recovery []
    { pages := [[demoRecord1], [demoRecord2]], failAt := some 1 }
    { pages := [], failAt := Option.none } 0 0 1
    rfl (by decide) (by decide) rfl (by decide)).1

theorem length_filter_failed_add (runs : List CourseRunOutcome) :
    (runs.filter (fun r => !r.failedRun)).length +
      (runs.filter (fun r => r.failedRun)).length = runs.length := by
  induction runs with
  | nil => rfl
  | cons r rs ih =>
    cases h : r.failedRun <;> simp [List.filter_cons, h] <;> omega

/-- C9: `POST /courses/sync` always returns one aggregate summary, even when
some courses' runs failed: every triggered run is accounted for either in
`courses_synced` or as an enumerated failure, `assignments_synced` aggregates
across all runs, and each failed run's message appears in the response's
failure list rather than being surfaced as a hard error. -/
theorem postCoursesSync_aggregate (runs : List CourseRunOutcome) :
    (postCoursesSync runs).courses_synced +
      (postCoursesSync runs).failures.length = runs.length ∧
    (postCoursesSync runs).assignments_synced =
      (runs.map (fun r => r.assignmentsSynced)).sum ∧
    (∀ r ∈ runs, r.failedRun = true →
      r.errorMsg ∈ (postCoursesSync runs).failures) := by
  refine ⟨?_, rfl, ?_⟩
  · simp only [postCoursesSync, List.length_map]
    exact length_filter_failed_add runs
  · intro r hr hf
    exact List.mem_map_of_mem _ (List.mem_filter.mpr ⟨hr, by simp [hf]⟩)

/-- C9 witness: with one succeeded and one failed course run, the summary
still aggregates and the failed run's message is enumerated. -/
theorem postCoursesSync_aggregate_witness :
    (postCoursesSync
      [{ courseId := 1, assignmentsSynced := 3, failedRun := false,
         errorMsg := "" },
       { courseId := 2, assignmentsSynced := 0, failedRun := true,
         errorMsg := "rate limited" }]).courses_synced +
      (postCoursesSync
        [{ courseId := 1, assignmentsSynced := 3, failedRun := false,
           errorMsg := "" },
         { courseId := 2, assignmentsSynced := 0, failedRun := true,
           errorMsg := "rate limited" }]).failures.length = 2 ∧
    "rate limited" ∈ (postCoursesSync
      [{ courseId := 1, assignmentsSynced := 3, failedRun := false,
         errorMsg := "" },
       { courseId := 2, assignmentsSynced := 0, failedRun := true,
         errorMsg := "rate limited" }]).failures :=
  ⟨(postCoursesSync_aggregate _).1,
    (postCoursesSync_aggregate _).2.2
      { courseId := 2, assignmentsSynced := 0, failedRun := true,
        errorMsg := "rate limited" } (by simp) rfl⟩

end ClassroomAgent
